import Mathlib

/-!
Verification development for the product-assistant repository (scraper2.py).

The Python functions of scraper2.py are shallowly embedded as executable Lean
definitions.  Machine floats are modelled as rationals, Python strings as
Lean strings (lists of characters), raised exceptions as the error case of
`Except`.  Behaviour of Python-standard-library and third-party helpers that
scraper2.py calls (urllib.parse, re, BeautifulSoup / soupsieve) is embedded
to the depth the program exercises it.
-/

set_option autoImplicit false
set_option linter.unusedVariables false

namespace Scraper

/-! ## Whitespace (Python str.isspace / regex \s character class) -/

/-- Characters matched by Python's whitespace class (`\s` in `re`, `str.strip()`
with no argument): ASCII whitespace, the C1/Unicode space separators. -/
def pyIsSpace (c : Char) : Bool :=
  let n := c.toNat
  (9 ≤ n && n ≤ 13) || n = 32 || (28 ≤ n && n ≤ 31) || n = 133 || n = 160 ||
  n = 5760 || (8192 ≤ n && n ≤ 8202) || n = 8232 || n = 8233 || n = 8239 ||
  n = 8287 || n = 12288

/-- Worker for `collapseWs`: the flag records whether we are inside a
whitespace run whose replacement space was already emitted. -/
def collapseAux : Bool → List Char → List Char
  | _, [] => []
  | inRun, c :: cs =>
    if pyIsSpace c then
      if inRun then collapseAux true cs
      else ' ' :: collapseAux true cs
    else c :: collapseAux false cs

/-- `re.sub(r"\s+", " ", ·)`: every maximal run of whitespace becomes one space. -/
def collapseWs (l : List Char) : List Char :=
  collapseAux false l

/-- Python `str.strip()`: drop whitespace from both ends. -/
def pyStrip (l : List Char) : List Char :=
  ((l.dropWhile pyIsSpace).reverse.dropWhile pyIsSpace).reverse

/-- Split on runs of whitespace, dropping empty tokens
(Python `str.split()` with no argument). -/
def splitWs (l : List Char) : List (List Char) :=
  (l.foldr
    (fun c acc =>
      if pyIsSpace c then [] :: acc
      else
        match acc with
        | [] => [[c]]
        | t :: ts => (c :: t) :: ts)
    []).filter (fun t => !t.isEmpty)

/-- Python `str.split(sep)` with a one-character separator: keeps empty pieces,
and splitting the empty string yields one empty piece. -/
def splitAllOn (sep : Char) (l : List Char) : List (List Char) :=
  l.foldr
    (fun c acc =>
      if c = sep then [] :: acc
      else
        match acc with
        | [] => [[c]]
        | t :: ts => (c :: t) :: ts)
    [[]]

/-- Python `s.split(sep, 1)` given that `sep` occurs: the pieces before and
after the first occurrence. -/
def splitFirst (sep : Char) (l : List Char) : List Char × List Char :=
  (l.takeWhile (fun c => c != sep), (l.dropWhile (fun c => c != sep)).drop 1)

/-! ## clean_price (scraper2.py lines 117-126) -/

/-- Numeric value of a list of ASCII digits. -/
def digitsToNat (l : List Char) : Nat :=
  l.foldl (fun n c => 10 * n + (c.toNat - 48)) 0

/-- The leftmost match of the regex `\d[\d,]*\.?\d*` in a character list, if
any.  The pattern has nothing after the greedy parts, so the greedy scan needs
no backtracking: from the first digit take the maximal run of digits and
commas, then an optional dot followed by the maximal run of digits. -/
def priceMatch : List Char → Option (List Char)
  | [] => none
  | c :: cs =>
    if c.isDigit then
      match cs.dropWhile (fun d => d.isDigit || d == ',') with
      | '.' :: r2 =>
        some (c :: cs.takeWhile (fun d => d.isDigit || d == ',') ++
          '.' :: r2.takeWhile Char.isDigit)
      | _ => some (c :: cs.takeWhile (fun d => d.isDigit || d == ','))
    else priceMatch cs

/-- Python `float()` restricted to the unsigned decimal forms that can reach it
here (digits, optionally a dot and more digits); the value is modelled as an
exact rational. -/
def pyFloat (l : List Char) : Option ℚ :=
  match l.dropWhile Char.isDigit with
  | [] =>
    if (l.takeWhile Char.isDigit).isEmpty then none
    else some (digitsToNat (l.takeWhile Char.isDigit) : ℚ)
  | '.' :: fr =>
    if (l.takeWhile Char.isDigit).isEmpty && fr.isEmpty then none
    else if fr.all Char.isDigit then
      some ((digitsToNat (l.takeWhile Char.isDigit) : ℚ) +
        (digitsToNat fr : ℚ) / (10 : ℚ) ^ fr.length)
    else none
  | _ => none

/-- `s.replace("\xa0", " ")`: each non-breaking space becomes a plain space. -/
def replaceNbsp (s : String) : List Char :=
  s.toList.map (fun c => if c = Char.ofNat 160 then ' ' else c)

/-- scraper2.py `clean_price`: on a non-empty string, replace each non-breaking
space by a plain space, search for the first `\d[\d,]*\.?\d*` match, remove its
commas and read it as a float; `None` when the string is empty or no match
exists. -/
def clean_price (s : String) : Option ℚ :=
  if s = "" then none
  else
    match priceMatch (replaceNbsp s) with
    | none => none
    | some m => pyFloat (m.filter (fun c => c != ','))

/-! ## urllib.parse: urlsplit / urlparse / urlunparse / urljoin

Embeds the parts of CPython's `urllib/parse.py` that scraper2.py reaches
through `urlparse(url).hostname` and `urljoin(base, url)`.  `urlsplit` raises
`ValueError("Invalid IPv6 URL")` on a netloc containing an unmatched square
bracket; that is the error case of `Except`. -/

/-- Characters allowed in a URL scheme after the first letter. -/
def isSchemeChar (c : Char) : Bool :=
  c.isAlpha || c.isDigit || c == '+' || c == '-' || c == '.'

/-- Scheme recognition of `urlsplit`: a leading `alpha (alnum|+|-|.)* :` is
split off and lowercased, anything else leaves the URL untouched. -/
def splitScheme (l : List Char) : List Char × List Char :=
  match l.dropWhile (fun c => c != ':') with
  | ':' :: rest =>
    match h : l.takeWhile (fun c => c != ':') with
    | [] => ([], l)
    | c :: cs =>
      if c.isAlpha && (c :: cs).all isSchemeChar then
        ((c :: cs).map Char.toLower, rest)
      else ([], l)
  | _ => ([], l)

/-- Result of `urlsplit` (without the params component). -/
structure SplitResult where
  scheme : String
  netloc : String
  path : String
  query : String
  fragment : String
deriving Repr, DecidableEq

/-- A character `urlsplit` deletes anywhere in its input. -/
def isUnsafeUrlChar (c : Char) : Bool := c == '\t' || c == '\r' || c == '\n'

/-- CPython `urlsplit`: strip C0-control/space characters from both ends,
delete tab/CR/LF, split off scheme, netloc (after `//`, up to `/?#`, with the
mismatched-bracket `ValueError`), fragment (first `#`), query (first `?`). -/
def urlsplit (url : String) : Except String SplitResult :=
  let l0 := url.toList
  let l1 := ((l0.dropWhile (fun c => c.toNat ≤ 32)).reverse.dropWhile
      (fun c => c.toNat ≤ 32)).reverse
  let l := l1.filter (fun c => !isUnsafeUrlChar c)
  let p := splitScheme l
  let scheme := p.1
  let rest := p.2
  let np :=
    match rest with
    | '/' :: '/' :: r =>
      (r.takeWhile (fun c => c != '/' && c != '?' && c != '#'),
       r.dropWhile (fun c => c != '/' && c != '?' && c != '#'))
    | _ => ([], rest)
  let netloc := np.1
  if (netloc.any (fun c => c == '[') && !netloc.any (fun c => c == ']')) ||
     (netloc.any (fun c => c == ']') && !netloc.any (fun c => c == '[')) then
    .error "Invalid IPv6 URL"
  else
    let fp := if np.2.any (fun c => c == '#') then splitFirst '#' np.2 else (np.2, [])
    let qp := if fp.1.any (fun c => c == '?') then splitFirst '?' fp.1 else (fp.1, [])
    .ok ⟨scheme.asString, netloc.asString, qp.1.asString, qp.2.asString, fp.2.asString⟩

/-- The `hostname` property of a split result: the part of the netloc after
the last `@`, then either the bracketed host or the part before the first `:`,
lowercased; `None` when empty. -/
def hostOf (r : SplitResult) : Option String :=
  let netloc := r.netloc.toList
  let hostinfo := (netloc.reverse.takeWhile (fun c => c != '@')).reverse
  let host :=
    if hostinfo.any (fun c => c == '[') then
      ((hostinfo.dropWhile (fun c => c != '[')).drop 1).takeWhile (fun c => c != ']')
    else hostinfo.takeWhile (fun c => c != ':')
  if host.isEmpty then none else some ((host.map Char.toLower).asString)

/-- scraper2.py line 29: hosts the compliance guard is meant to deny. -/
def BLOCKED_HOSTS : List String := ["myntra.com", "www.myntra.com"]

/-- scraper2.py `domain_blocked` (lines 56-59): lowercase the hostname of the
URL (empty when absent) and test `str.endswith("myntra.com")`; a `ValueError`
from `urlparse` propagates. -/
def domain_blocked (url : String) : Except String Bool := do
  let r ← urlsplit url
  let host := (((hostOf r).getD "").toList.map Char.toLower)
  pure (List.isSuffixOf "myntra.com".toList host)

/-- Result of `urlparse`: a split result plus the params component. -/
structure ParseResult where
  scheme : String
  netloc : String
  path : String
  params : String
  query : String
  fragment : String
deriving Repr, DecidableEq

/-- CPython `_splitparams`: split the path at the first `;` occurring in its
last `/`-segment (or anywhere when there is no `/`). -/
def splitparams (l : List Char) : List Char × List Char :=
  if l.any (fun c => c == '/') then
    let suf := (l.reverse.takeWhile (fun c => c != '/')).reverse
    let pre := l.take (l.length - suf.length)
    if suf.any (fun c => c == ';') then
      (pre ++ suf.takeWhile (fun c => c != ';'),
       (suf.dropWhile (fun c => c != ';')).drop 1)
    else (l, [])
  else
    (l.takeWhile (fun c => c != ';'), (l.dropWhile (fun c => c != ';')).drop 1)

/-- CPython `urlparse`: `urlsplit`, then split params off the path when the
path contains a `;`. -/
def urlparse (url : String) : Except String ParseResult := do
  let r ← urlsplit url
  if r.path.toList.any (fun c => c == ';') then
    let pp := splitparams r.path.toList
    pure ⟨r.scheme, r.netloc, pp.1.asString, pp.2.asString, r.query, r.fragment⟩
  else
    pure ⟨r.scheme, r.netloc, r.path, "", r.query, r.fragment⟩

/-- CPython `urlunsplit`. -/
def urlunsplit (scheme netloc path query fragment : String) : String :=
  let url := path
  let url :=
    if netloc ≠ "" || (path ≠ "" && path.toList.take 2 = ['/', '/']) then
      "//" ++ netloc ++
        (if url ≠ "" && url.toList.head? ≠ some '/' then "/" ++ url else url)
    else url
  let url := if scheme ≠ "" then scheme ++ ":" ++ url else url
  let url := if query ≠ "" then url ++ "?" ++ query else url
  if fragment ≠ "" then url ++ "#" ++ fragment else url

/-- CPython `urlunparse`. -/
def urlunparse (r : ParseResult) : String :=
  urlunsplit r.scheme r.netloc
    (if r.params ≠ "" then r.path ++ ";" ++ r.params else r.path)
    r.query r.fragment

/-- Schemes that allow relative resolution (CPython `uses_relative`). -/
def uses_relative : List String :=
  ["", "ftp", "http", "gopher", "nntp", "imap", "wais", "file", "https",
   "shttp", "mms", "prospero", "rtsp", "rtspu", "sftp", "svn", "svn+ssh",
   "ws", "wss"]

/-- Schemes with a network location (CPython `uses_netloc`). -/
def uses_netloc : List String :=
  ["", "ftp", "http", "gopher", "nntp", "telnet", "imap", "wais", "file",
   "mms", "https", "shttp", "snews", "prospero", "rtsp", "rtspu", "rsync",
   "svn", "svn+ssh", "sftp", "nfs", "git", "git+ssh", "ws", "wss"]

/-- The `..`/`.` resolution loop of `urljoin` (pop ignores underflow). -/
def resolveSegs : List String → List String → List String
  | [], acc => acc
  | s :: rest, acc =>
    if s = ".." then resolveSegs rest acc.dropLast
    else if s = "." then resolveSegs rest acc
    else resolveSegs rest (acc ++ [s])

/-- `segments[1:-1] = filter(None, segments[1:-1])`: drop empty strings from
the middle, keeping the first and last elements. -/
def filterMiddle : List String → List String
  | [] => []
  | [a] => [a]
  | a :: rest =>
    match rest.getLast? with
    | none => [a]
    | some lastS => a :: ((rest.dropLast).filter (fun s => s ≠ "")) ++ [lastS]

/-- Python `str.split('/')` producing Lean strings. -/
def splitSlash (s : String) : List String :=
  (splitAllOn '/' s.toList).map List.asString

/-- Python `'/'.join`. -/
def joinSlash (l : List String) : String :=
  String.intercalate "/" l

/-- CPython `urljoin(base, url)`: full RFC-3986-style reference resolution as
implemented in `urllib/parse.py` (scheme/netloc inheritance, dot-segment
removal); propagates the `ValueError` of `urlparse`. -/
def urljoin (base url : String) : Except String String := do
  if base = "" then pure url
  else if url = "" then pure base
  else
    let b ← urlparse base
    let u ← urlparse url
    let scheme := if u.scheme = "" then b.scheme else u.scheme
    if scheme ≠ b.scheme || !uses_relative.contains scheme then pure url
    else if uses_netloc.contains scheme && u.netloc ≠ "" then
      pure (urlunparse ⟨scheme, u.netloc, u.path, u.params, u.query, u.fragment⟩)
    else
      let netloc := if uses_netloc.contains scheme then b.netloc else u.netloc
      if u.path = "" && u.params = "" then
        let query := if u.query = "" then b.query else u.query
        pure (urlunparse ⟨scheme, netloc, b.path, b.params, query, u.fragment⟩)
      else
        let baseParts0 := splitSlash b.path
        let baseParts :=
          if baseParts0.getLast? ≠ some "" then baseParts0.dropLast else baseParts0
        let segments :=
          if u.path.toList.head? = some '/' then splitSlash u.path
          else filterMiddle (baseParts ++ splitSlash u.path)
        let resolved0 := resolveSegs segments []
        let resolved :=
          if segments.getLast? = some ".." || segments.getLast? = some "." then
            resolved0 ++ [""]
          else resolved0
        let path := if joinSlash resolved = "" then "/" else joinSlash resolved
        pure (urlunparse ⟨scheme, netloc, path, u.params, u.query, u.fragment⟩)

/-- scraper2.py `to_abs` (lines 112-115): `None` and the empty string pass
through unchanged, anything else is `urljoin(base, url)`. -/
def to_abs (url : Option String) (base : String) : Except String (Option String) :=
  match url with
  | none => pure none
  | some u => if u = "" then pure (some u) else (urljoin base u).map some

/-! ## fetch_html (scraper2.py lines 61-95)

The network is abstracted: `render` stands for the Playwright page-content
capture, `get` for the session GET (both assumed successful; retry behaviour
and HTTP failures are not claimed).  The returned trace records every network
interaction the call performs, in order. -/

/-- One network interaction of `fetch_html`. -/
inductive NetEvent where
  | httpGet (url : String)
  | jsRender (url : String)
deriving Repr, DecidableEq

/-- The exceptions `fetch_html` can raise. -/
inductive FetchErr where
  | policyError (msg : String)
  | runtimeError (msg : String)
  | valueError (msg : String)
deriving Repr, DecidableEq

/-- The message of the `ValueError` raised for blocked hosts (lines 66-70). -/
def policyMsg : String :=
  "This app blocks requests to myntra.com to respect their Terms of Use."

/-- scraper2.py `fetch_html`: raise for blocked domains before any network
access, then either render via Playwright (when requested and available) or
issue a plain GET. -/
def fetch_html (url : String) (use_js : Bool) (playwright_available : Bool)
    (render : String → String) (get : String → String) :
    Except FetchErr String × List NetEvent :=
  match domain_blocked url with
  | .error e => (.error (.valueError e), [])
  | .ok true => (.error (.policyError policyMsg), [])
  | .ok false =>
    if use_js then
      if playwright_available then (.ok (render url), [.jsRender url])
      else (.error (.runtimeError "Playwright is not installed"), [])
    else (.ok (get url), [.httpGet url])

/-! ## HTML document model and CSS selection

A parsed document (the result of `BeautifulSoup(html, "html.parser")`) is a
list of top-level nodes; an element carries its tag, attribute list and
children.  CSS selection is embedded for the selector sublanguage the program
configures (tag names, classes, descendant combinators); any other selector
text is a syntax error, which `soupsieve` raises and `sel_one` / `sel_all`
swallow. -/

inductive HNode where
  | elem (tag : String) (attrs : List (String × String)) (children : List HNode)
  | textN (s : String)
deriving Repr

mutual
/-- The descendant text segments of a node, in document order
(the strings BeautifulSoup `_all_strings` yields before stripping). -/
def HNode.textSegs : HNode → List String
  | .textN s => [s]
  | .elem _ _ cs => textSegsList cs

def textSegsList : List HNode → List String
  | [] => []
  | c :: cs => c.textSegs ++ textSegsList cs
end

/-- BeautifulSoup `get_text(strip=True)`: each text segment is stripped,
whitespace-only segments are dropped, and the results are concatenated with
no separator. -/
def getTextStrip (n : HNode) : List Char :=
  ((n.textSegs.map (fun s => pyStrip s.toList)).filter (fun s => !s.isEmpty)).flatten

/-- scraper2.py `txt` on a present node: `re.sub(r"\s+", " ", el.get_text(strip=True))`. -/
def txtNode (n : HNode) : List Char :=
  collapseWs (getTextStrip n)

/-- scraper2.py `txt` (lines 97-98): the collapsed stripped text, or `""` when
the element is `None`. -/
def txt : Option HNode → String
  | none => ""
  | some n => (txtNode n).asString

/-- BeautifulSoup `Tag.get(key)`: the first attribute with the given name. -/
def HNode.attr : HNode → String → Option String
  | .textN _, _ => none
  | .elem _ attrs _, k => (attrs.find? (fun p => p.1 == k)).map Prod.snd

/-- The whitespace-separated class names of an element. -/
def HNode.classList (n : HNode) : List String :=
  match n.attr "class" with
  | none => []
  | some v => (splitWs v.toList).map List.asString

/-- One compound selector: an optional tag name plus required classes. -/
structure SimpleSel where
  tag : Option String
  classes : List String
deriving Repr, DecidableEq

/-- A descendant-combinator chain: the ancestor compounds (outermost first)
and the compound the matched node itself must satisfy. -/
structure CssChain where
  front : List SimpleSel
  last : SimpleSel
deriving Repr, DecidableEq

/-- Characters accepted in tag and class names of the selector sublanguage. -/
def isSelNameChar (c : Char) : Bool :=
  c.isAlphanum || c == '-' || c == '_'

/-- Parse one compound: `tag`, `*`, `.cls`, `tag.cls.cls2`, …; `none` is a
selector syntax error. -/
def parseCompound (tok : List Char) : Option SimpleSel :=
  match splitAllOn '.' tok with
  | [] => none
  | t :: cls =>
    if t.isEmpty && cls.isEmpty then none
    else if !(t.isEmpty || t == ['*'] || t.all isSelNameChar) then none
    else if cls.any (fun c => c.isEmpty || !c.all isSelNameChar) then none
    else some ⟨if t.isEmpty || t == ['*'] then none else some t.asString,
               cls.map List.asString⟩

/-- Parse a selector string into a descendant chain; `none` stands for the
`SelectorSyntaxError` soupsieve raises (also for a whitespace-only string). -/
def parseSelector (s : String) : Option CssChain :=
  match (splitWs s.toList).mapM parseCompound with
  | none => none
  | some sels =>
    match sels.getLast? with
    | none => none
    | some lastS => some ⟨sels.dropLast, lastS⟩

/-- Does a node satisfy one compound selector? -/
def matchesSimple (n : HNode) (sel : SimpleSel) : Bool :=
  match n with
  | .textN _ => false
  | .elem tag _ _ =>
    (match sel.tag with
     | none => true
     | some t => t == tag) &&
    sel.classes.all (fun c => n.classList.contains c)

/-- Can the ancestor compounds (outermost first) be embedded, in order, into
the ancestor list (outermost first)? -/
def subMatch : List SimpleSel → List HNode → Bool
  | [], _ => true
  | _ :: _, [] => false
  | s :: ss, a :: rest =>
    (matchesSimple a s && subMatch ss rest) || subMatch (s :: ss) rest

mutual
/-- Collect, in document order, the elements of the subtree rooted at the
argument (itself included) that match the chain, given the ancestors of the
argument. -/
def selectNode (chain : CssChain) (ancs : List HNode) : HNode → List HNode
  | .textN _ => []
  | .elem t a children =>
    (if matchesSimple (.elem t a children) chain.last && subMatch chain.front ancs
      then [HNode.elem t a children] else []) ++
    selectNodeList chain (ancs ++ [HNode.elem t a children]) children

/-- `selectNode` over a forest, left to right. -/
def selectNodeList (chain : CssChain) (ancs : List HNode) : List HNode → List HNode
  | [] => []
  | n :: rest => selectNode chain ancs n ++ selectNodeList chain ancs rest
end

/-- `soup.select(chain)`: all matching elements of the document. -/
def soupSelect (doc : List HNode) (chain : CssChain) : List HNode :=
  selectNodeList chain [] doc

/-- `tag.select(chain)`: matching proper descendants of the element, the
element itself acting as the innermost ancestor. -/
def tagSelect (n : HNode) (chain : CssChain) : List HNode :=
  match n with
  | .textN _ => []
  | .elem _ _ children => selectNodeList chain [n] children

/-- scraper2.py `sel_all` (lines 106-110), applied to the soup: an empty
selector yields `[]`, and any exception (selector syntax error) is swallowed
into `[]`. -/
def sel_all (doc : List HNode) (selector : String) : List HNode :=
  if selector = "" then []
  else
    match parseSelector selector with
    | none => []
    | some chain => soupSelect doc chain

/-- scraper2.py `sel_one` (lines 100-104), applied to a card element: an empty
selector yields `None`, a syntax error is swallowed into `None`, otherwise the
first match in document order. -/
def sel_one (c : HNode) (selector : String) : Option HNode :=
  if selector = "" then none
  else
    match parseSelector selector with
    | none => none
    | some chain => (tagSelect c chain).head?

/-! ## parse_products (scraper2.py lines 128-177) -/

/-- The selector configuration; `""` stands for an absent dictionary key
(the source reads every key with `selectors.get(k, "")`). -/
structure Selectors where
  card : String
  name : String
  price : String
  image : String
  review : String
  link : String
deriving Repr, DecidableEq

/-- One output record of `parse_products`. -/
structure Product where
  product_name : Option String
  price_text : Option String
  price_value : Option ℚ
  image_url : Option String
  review : Option String
  product_url : Option String
deriving Repr, DecidableEq

/-- Python `a or b` on optional strings: `a` unless it is falsy
(`None` or `""`). -/
def pyOrStr (a b : Option String) : Option String :=
  match a with
  | some s => if s = "" then b else some s
  | none => b

/-- Python `s or None`. -/
def strOrNone (s : String) : Option String :=
  if s = "" then none else some s

/-- The image-URL part of the card loop: when an image element matched,
prefer `src`, then `data-src`, then `data-original`, and resolve the winner
against the page URL (possibly raising through `to_abs`). -/
def imageStep (page_url : String) (image_el : Option HNode) :
    Except String (Option String) :=
  match image_el with
  | none => pure none
  | some el =>
    to_abs (pyOrStr (pyOrStr (el.attr "src") (el.attr "data-src"))
      (el.attr "data-original")) page_url

/-- The product-URL part of the card loop: when a link element matched and
carries an `href` attribute, resolve it against the page URL (possibly
raising through `to_abs`). -/
def linkStep (page_url : String) (link_el : Option HNode) :
    Except String (Option String) :=
  match link_el with
  | none => pure none
  | some el =>
    if (el.attr "href").isSome then to_abs (el.attr "href") page_url
    else pure none

/-- The body of the card loop of `parse_products`: build one record from one
card.  The only exception that can escape is the `ValueError` of `urljoin`
reached through `to_abs`, first for the image and then for the link. -/
def buildProduct (page_url : String) (sels : Selectors) (c : HNode) :
    Except String Product := do
  let image_url ← imageStep page_url (sel_one c sels.image)
  let product_url ← linkStep page_url (sel_one c sels.link)
  pure ⟨strOrNone (txt (sel_one c sels.name)),
    strOrNone (txt (sel_one c sels.price)),
    clean_price (txt (sel_one c sels.price)),
    image_url,
    (sel_one c sels.review).map (fun el => txt (some el)),
    product_url⟩

/-- The card loop: records are accumulated in order; an exception aborts the
whole call, discarding the accumulated records. -/
def buildAll (page_url : String) (sels : Selectors) :
    List HNode → Except String (List Product)
  | [] => pure []
  | c :: cs => do
    let r ← buildProduct page_url sels c
    let rest ← buildAll page_url sels cs
    pure (r :: rest)

/-- scraper2.py `parse_products`: select the cards, truncate to `max_items`,
and build one record per card. -/
def parse_products (page_url : String) (doc : List HNode) (sels : Selectors)
    (max_items : Nat) : Except String (List Product) :=
  buildAll page_url sels ((sel_all doc sels.card).take max_items)

/-- The default selector set of the source (line 198), for concrete runs. -/
def DEFAULT_SELECTORS : Selectors :=
  ⟨"ol.row li", "h3 a", ".price_color", ".image_container img",
   "p.star-rating", "h3 a"⟩

end Scraper

namespace Scraper

/-! ## Concrete fixtures (inputs for witnesses and counterexamples) -/

/-- A two-product listing in the books.toscrape.com markup shape, plus one
card-matching node containing no product markup at all. -/
def fixtureDoc : List HNode :=
  [.elem "html" [] [.elem "body" [] [
    .elem "ol" [("class", "row")] [
      .elem "li" [("class", "col-xs-6")] [
        .elem "article" [("class", "product_pod")] [
          .elem "div" [("class", "image_container")] [
            .elem "a" [("href", "catalogue/a-light_1000/index.html")] [
              .elem "img" [("src", "../media/img1.jpg")] []]],
          .elem "p" [("class", "star-rating Three")] [],
          .elem "h3" [] [.elem "a"
            [("href", "catalogue/a-light_1000/index.html")]
            [.textN "A Light in the Attic"]],
          .elem "div" [("class", "product_price")] [
            .elem "p" [("class", "price_color")] [.textN "£51.77"]]]],
      .elem "li" [("class", "col-xs-6")] [
        .elem "article" [("class", "product_pod")] [
          .elem "h3" [] [.elem "a"
            [("href", "catalogue/tipping_998/index.html")]
            [.textN "Tipping the Velvet"]],
          .elem "div" [("class", "product_price")] [
            .elem "p" [("class", "price_color")] [.textN "£53.74"]]]],
      .elem "li" [] [.textN "no product here"]]]]]

/-- A one-card document whose link target has an unmatched bracket, which
makes `urljoin` raise `ValueError("Invalid IPv6 URL")`. -/
def fixtureBracket : List HNode :=
  [.elem "div" [("class", "c")] [.elem "a" [("href", "http://[")] [.textN "x"]]]

/-- A field node whose text is split over two child elements, with whitespace
at the segment boundaries. -/
def fixtureSplit : HNode :=
  .elem "div" [] [.elem "b" [] [.textN "Hello "], .elem "i" [] [.textN " World"]]

/-- A one-card document carrying only a price. -/
def fixturePrice : List HNode :=
  [.elem "div" [("class", "c")] [.elem "p" [("class", "p")] [.textN "£51"]]]

/-- The claim's reading of the denylist check: the host equals an entry of
`BLOCKED_HOSTS` or is a subdomain of one. -/
def specHostDenied (host : String) : Bool :=
  BLOCKED_HOSTS.any (fun b =>
    host == b || List.isSuffixOf ("." ++ b).toList host.toList)

/-- The spec's collapsed text content of a node: take the full text content
(all segments concatenated as they stand), fold every whitespace run to one
space, and trim the result. -/
def specCollapsedText (n : HNode) : String :=
  (pyStrip (collapseWs ((n.textSegs.map String.toList).flatten))).asString

/-! ## Supporting lemmas -/

theorem pyFloat_nonneg {l : List Char} {q : ℚ} (h : pyFloat l = some q) : 0 ≤ q := by
  unfold pyFloat at h
  split at h
  · split at h
    · simp at h
    · injection h with h1
      rw [← h1]
      exact Nat.cast_nonneg _
  · split at h
    · simp at h
    · split at h
      · injection h with h1
        rw [← h1]
        refine add_nonneg (Nat.cast_nonneg _) (div_nonneg (Nat.cast_nonneg _) ?_)
        positivity
      · simp at h
  · simp at h

theorem takeWhile_all_append {α : Type} (p : α → Bool) {l : List α} (r : List α)
    (h : l.all p) : (l ++ r).takeWhile p = l ++ r.takeWhile p := by
  induction l with
  | nil => simp
  | cons a t ih =>
    simp only [List.all_cons, Bool.and_eq_true] at h
    simp [List.takeWhile_cons, h.1, ih h.2]

theorem dropWhile_all_append {α : Type} (p : α → Bool) {l : List α} (r : List α)
    (h : l.all p) : (l ++ r).dropWhile p = r.dropWhile p := by
  induction l with
  | nil => simp
  | cons a t ih =>
    simp only [List.all_cons, Bool.and_eq_true] at h
    simp [List.dropWhile_cons, h.1, ih h.2]

/-- Every character of a `priceMatch` body run is a digit once commas are
filtered out. -/
theorem body_filter_digits (cs : List Char) :
    ((cs.takeWhile (fun d => d.isDigit || d == ',')).filter
      (fun c => c != ',')).all Char.isDigit = true := by
  rw [List.all_eq_true]
  intro x hx
  have h1 := List.mem_filter.mp hx
  have h2 := List.mem_takeWhile_imp h1.1
  have h3 := h1.2
  rcases Bool.or_eq_true_iff.mp h2 with h | h
  · exact h
  · exact absurd (by simpa using h) (by simpa using h3)

theorem digit_ne_comma {c : Char} (h : c.isDigit = true) : (c != ',') = true := by
  rcases eq_or_ne c ',' with h1 | h1
  · subst h1
    simp at h
  · simpa using h1

theorem all_digit_filter_comma {l : List Char} (h : l.all Char.isDigit = true) :
    l.filter (fun c => c != ',') = l := by
  rw [List.filter_eq_self]
  intro a ha
  exact digit_ne_comma (by rw [List.all_eq_true] at h; exact h a ha)

/-- `pyFloat` on a non-empty all-digit list. -/
theorem pyFloat_digits {ds : List Char} (h : ds.all Char.isDigit = true)
    (hne : ds ≠ []) : pyFloat ds = some (digitsToNat ds : ℚ) := by
  have hd : ds.dropWhile Char.isDigit = [] :=
    List.dropWhile_eq_nil_iff.mpr (by rw [List.all_eq_true] at h; exact h)
  have ht : ds.takeWhile Char.isDigit = ds := by
    have h2 := List.takeWhile_append_dropWhile Char.isDigit ds
    rw [hd, List.append_nil] at h2
    exact h2
  rw [pyFloat.eq_def, hd, ht]
  simp [List.isEmpty_iff, hne]

/-- `pyFloat` on digits, a dot, and digits (the fractional digits possibly
empty). -/
theorem pyFloat_digits_dot {ds fr : List Char} (hds : ds.all Char.isDigit = true)
    (hfr : fr.all Char.isDigit = true) (hne : ds ≠ []) :
    pyFloat (ds ++ '.' :: fr) =
      some ((digitsToNat ds : ℚ) + (digitsToNat fr : ℚ) / (10 : ℚ) ^ fr.length) := by
  have hdot : ('.' : Char).isDigit = false := by decide
  have hd : (ds ++ '.' :: fr).dropWhile Char.isDigit = '.' :: fr := by
    rw [dropWhile_all_append Char.isDigit _ hds, List.dropWhile_cons, hdot]
    simp
  have ht : (ds ++ '.' :: fr).takeWhile Char.isDigit = ds := by
    rw [takeWhile_all_append Char.isDigit _ hds, List.takeWhile_cons, hdot]
    simp
  rw [pyFloat.eq_def, hd, ht]
  simp [List.isEmpty_iff, hne, hfr]

/-- The value extracted from any `priceMatch` result parses as a float:
the try/except in `clean_price` never actually catches anything. -/
theorem priceMatch_parses {l m : List Char} (h : priceMatch l = some m) :
    ∃ q : ℚ, pyFloat (m.filter (fun c => c != ',')) = some q := by
  induction l with
  | nil => simp [priceMatch] at h
  | cons c cs ih =>
    rw [priceMatch] at h
    split at h
    · rename_i hc
      have hbd := body_filter_digits cs
      split at h
      · rename_i r2 heq
        injection h with h1
        subst h1
        have hfr : (r2.takeWhile Char.isDigit).all Char.isDigit = true := by
          rw [List.all_eq_true]
          intro x hx
          exact List.mem_takeWhile_imp hx
        have hfil :
            (c :: cs.takeWhile (fun d => d.isDigit || d == ',') ++
              '.' :: r2.takeWhile Char.isDigit).filter (fun c => c != ',') =
            (c :: (cs.takeWhile (fun d => d.isDigit || d == ',')).filter
              (fun c => c != ',')) ++ '.' :: r2.takeWhile Char.isDigit := by
          simp [List.filter_cons, List.filter_append, digit_ne_comma hc,
            all_digit_filter_comma hfr]
        rw [hfil]
        exact ⟨_, pyFloat_digits_dot (by simp [hc, hbd]) hfr (by simp)⟩
      · injection h with h1
        subst h1
        have hfil :
            (c :: cs.takeWhile (fun d => d.isDigit || d == ',')).filter
              (fun c => c != ',') =
            c :: (cs.takeWhile (fun d => d.isDigit || d == ',')).filter
              (fun c => c != ',') := by
          simp [List.filter_cons, digit_ne_comma hc]
        rw [hfil]
        exact ⟨_, pyFloat_digits (by simp [hc, hbd]) (by simp)⟩
    · exact ih h

/-- Decomposition of a `priceMatch` hit: the input splits as
`pre ++ m ++ post` where `pre` contains no digit (hence `m` is the leftmost
match of the pattern), and `m` starts with a digit. -/
theorem priceMatch_split {l m : List Char} (h : priceMatch l = some m) :
    ∃ pre post, l = pre ++ m ++ post ∧ pre.all (fun c => !c.isDigit) = true ∧
      ∃ c ms, m = c :: ms ∧ c.isDigit = true := by
  induction l with
  | nil => simp [priceMatch] at h
  | cons c cs ih =>
    rw [priceMatch] at h
    split at h
    · rename_i hc
      split at h
      · rename_i r2 heq
        injection h with h1
        subst h1
        refine ⟨[], r2.dropWhile Char.isDigit, ?_, by simp, _, _, rfl, hc⟩
        simp only [List.nil_append, List.cons_append, List.append_assoc,
          List.cons.injEq, true_and]
        rw [List.takeWhile_append_dropWhile, ← heq, List.takeWhile_append_dropWhile]
      · injection h with h1
        subst h1
        refine ⟨[], cs.dropWhile (fun d => d.isDigit || d == ','), ?_, by simp,
          _, _, rfl, hc⟩
        simp only [List.nil_append, List.cons_append, List.append_assoc,
          List.cons.injEq, true_and]
        rw [List.takeWhile_append_dropWhile]
    · rename_i hc
      obtain ⟨pre, post, hsplit, hpre, hm⟩ := ih h
      refine ⟨c :: pre, post, by simp [hsplit], ?_, hm⟩
      simp [hpre]
      simpa using hc

theorem okBind {e a b : Type} (x : a) (f : a → Except e b) :
    (Except.ok x : Except e a) >>= f = f x := rfl

theorem errBind {e a b : Type} (x : e) (f : a → Except e b) :
    (Except.error x : Except e a) >>= f = Except.error x := rfl

theorem pureEq {e a : Type} (x : a) : (pure x : Except e a) = Except.ok x := rfl

/-- A selector whose parse fails is swallowed by `sel_one` into `None`. -/
theorem sel_one_none {c : HNode} {s : String} (h : parseSelector s = none) :
    sel_one c s = none := by
  rw [sel_one]
  split
  · rfl
  · rw [h]

/-- A selector whose parse fails is swallowed by `sel_all` into `[]`. -/
theorem sel_all_none {doc : List HNode} {s : String} (h : parseSelector s = none) :
    sel_all doc s = [] := by
  rw [sel_all]
  split
  · rfl
  · rw [h]

/-- Field characterization of a successfully built record: the text fields
are computed from the card's field lookups, and an absent image/link element
leaves the corresponding URL field `None`. -/
theorem buildProduct_ok {page_url : String} {sels : Selectors} {c : HNode}
    {r : Product} (h : buildProduct page_url sels c = Except.ok r) :
    r.product_name = strOrNone (txt (sel_one c sels.name)) ∧
    r.price_text = strOrNone (txt (sel_one c sels.price)) ∧
    r.price_value = clean_price (txt (sel_one c sels.price)) ∧
    r.review = (sel_one c sels.review).map (fun el => txt (some el)) ∧
    (sel_one c sels.image = none → r.image_url = none) ∧
    (sel_one c sels.link = none → r.product_url = none) := by
  rw [buildProduct] at h
  rcases hi : imageStep page_url (sel_one c sels.image) with e | iu <;> rw [hi] at h
  · rw [errBind] at h
    simp at h
  · rw [okBind] at h
    rcases hl : linkStep page_url (sel_one c sels.link) with e | pu <;> rw [hl] at h
    · rw [errBind] at h
      simp at h
    · rw [okBind, pureEq] at h
      injection h with h1
      subst h1
      refine ⟨rfl, rfl, rfl, rfl, fun hx => ?_, fun hx => ?_⟩
      · rw [hx] at hi
        injection hi with h2
        exact h2.symm
      · rw [hx] at hl
        injection hl with h2
        exact h2.symm

/-- Every record of a successful `buildAll` run comes from one of the cards. -/
theorem buildAll_mem {page_url : String} {sels : Selectors} {l : List HNode}
    {rs : List Product} (h : buildAll page_url sels l = Except.ok rs) :
    ∀ r ∈ rs, ∃ c ∈ l, buildProduct page_url sels c = Except.ok r := by
  induction l generalizing rs with
  | nil =>
    simp only [buildAll] at h
    injection h with h1
    subst h1
    simp
  | cons c cs ih =>
    simp only [buildAll] at h
    rcases hb : buildProduct page_url sels c with e | r0 <;> rw [hb] at h
    · rw [errBind] at h
      simp at h
    · rw [okBind] at h
      rcases hrest : buildAll page_url sels cs with e | rest <;> rw [hrest] at h
      · rw [errBind] at h
        simp at h
      · rw [okBind] at h
        injection h with h1
        subst h1
        intro r hr
        rcases List.mem_cons.mp hr with h2 | h2
        · exact ⟨c, List.mem_cons_self c cs, by rw [h2]; exact hb⟩
        · obtain ⟨c2, hc2, hbc2⟩ := ih hrest r h2
          exact ⟨c2, List.mem_cons_of_mem c hc2, hbc2⟩

/-- A successful `buildAll` run has one record per card, index-aligned. -/
theorem buildAll_get {page_url : String} {sels : Selectors} {l : List HNode}
    {rs : List Product} (h : buildAll page_url sels l = Except.ok rs) :
    rs.length = l.length ∧
    ∀ (i : Nat) (hi : i < rs.length) (hj : i < l.length),
      buildProduct page_url sels (l.get ⟨i, hj⟩) = Except.ok (rs.get ⟨i, hi⟩) := by
  induction l generalizing rs with
  | nil =>
    simp only [buildAll] at h
    injection h with h1
    subst h1
    exact ⟨rfl, fun i hi hj => absurd hj (by simp)⟩
  | cons c cs ih =>
    simp only [buildAll] at h
    rcases hb : buildProduct page_url sels c with e | r0 <;> rw [hb] at h
    · rw [errBind] at h
      simp at h
    · rw [okBind] at h
      rcases hrest : buildAll page_url sels cs with e | rest <;> rw [hrest] at h
      · rw [errBind] at h
        simp at h
      · rw [okBind] at h
        injection h with h1
        subst h1
        obtain ⟨hlen, hidx⟩ := ih hrest
        refine ⟨by simp [hlen], ?_⟩
        intro i hi hj
        match i with
        | 0 => exact hb
        | Nat.succ i2 =>
          exact hidx i2 (by simpa using hi) (by simpa using hj)

/-- When every card builds, `buildAll` succeeds. -/
theorem buildAll_total {page_url : String} {sels : Selectors} {l : List HNode}
    (h : ∀ c ∈ l, ∃ p, buildProduct page_url sels c = Except.ok p) :
    ∃ rs, buildAll page_url sels l = Except.ok rs := by
  induction l with
  | nil => exact ⟨[], rfl⟩
  | cons c cs ih =>
    obtain ⟨p, hp⟩ := h c (List.mem_cons_self c cs)
    obtain ⟨rs, hrs⟩ := ih (fun c2 hc2 => h c2 (List.mem_cons_of_mem c hc2))
    refine ⟨p :: rs, ?_⟩
    simp only [buildAll]
    rw [hp, okBind, hrs, okBind, pureEq]

/-! ### Whitespace lemmas for C7 -/

theorem collapseAux_true (l : List Char) :
    collapseAux true l = collapseAux false (l.dropWhile pyIsSpace) := by
  induction l with
  | nil => rfl
  | cons c cs ih =>
    by_cases hc : pyIsSpace c
    · simp only [collapseAux, hc, if_true, List.dropWhile_cons, ih]
    · simp only [collapseAux, hc, Bool.false_eq_true, if_false,
        List.dropWhile_cons]

theorem dropWhile_of_length_eq {α : Type} {p : α → Bool} {l : List α}
    (h : (l.dropWhile p).length = l.length) : l.dropWhile p = l := by
  cases l with
  | nil => rfl
  | cons a t =>
    by_cases hp : p a
    · exfalso
      rw [List.dropWhile_cons, if_pos hp] at h
      have h2 := (List.dropWhile_suffix (l := t) p).sublist.length_le
      simp only [List.length_cons] at h
      omega
    · rw [List.dropWhile_cons, if_neg hp]

theorem pyStrip_fix {l : List Char} (h : pyStrip l = l) :
    l.dropWhile pyIsSpace = l ∧ l.reverse.dropWhile pyIsSpace = l.reverse := by
  have h1 : (l.dropWhile pyIsSpace).length ≤ l.length :=
    (List.dropWhile_suffix (l := l) pyIsSpace).sublist.length_le
  have h2 : ((l.dropWhile pyIsSpace).reverse.dropWhile pyIsSpace).length ≤
      (l.dropWhile pyIsSpace).length := by
    have := (List.dropWhile_suffix (l := (l.dropWhile pyIsSpace).reverse)
      pyIsSpace).sublist.length_le
    simpa using this
  have h3 : (pyStrip l).length = l.length := by rw [h]
  rw [pyStrip, List.length_reverse] at h3
  have h4 : l.dropWhile pyIsSpace = l := dropWhile_of_length_eq (by omega)
  refine ⟨h4, ?_⟩
  rw [pyStrip, h4] at h
  have h5 := congrArg List.reverse h
  rwa [List.reverse_reverse] at h5

theorem getLast?_cons_ne_nil {α : Type} {m : List α} (x : α) (h : m ≠ []) :
    (x :: m).getLast? = m.getLast? := by
  cases m with
  | nil => exact absurd rfl h
  | cons b t => exact List.getLast?_cons_cons

theorem ne_nil_of_getLast? {α : Type} {m : List α} {c : α}
    (h : m.getLast? = some c) : m ≠ [] := by
  intro he
  subst he
  simp at h

theorem collapseAux_cons (b : Bool) (a : Char) (t : List Char) :
    collapseAux b (a :: t) =
      if pyIsSpace a then
        (if b then collapseAux true t else ' ' :: collapseAux true t)
      else a :: collapseAux false t := rfl

theorem collapseAux_getLast? {l : List Char} {c : Char} :
    ∀ (b : Bool), l.getLast? = some c → pyIsSpace c = false →
      (collapseAux b l).getLast? = some c := by
  induction l with
  | nil => intro b h hc; simp at h
  | cons a t ih =>
    intro b h hc
    cases t with
    | nil =>
      simp only [List.getLast?_singleton, Option.some.injEq] at h
      subst h
      rw [collapseAux_cons, if_neg (by rw [hc]; exact Bool.false_ne_true)]
      rfl
    | cons a2 t2 =>
      rw [List.getLast?_cons_cons] at h
      have hrec : ∀ b2 : Bool, (collapseAux b2 (a2 :: t2)).getLast? = some c :=
        fun b2 => ih b2 h hc
      have hne : ∀ b2 : Bool, collapseAux b2 (a2 :: t2) ≠ [] :=
        fun b2 => ne_nil_of_getLast? (hrec b2)
      rw [collapseAux_cons]
      by_cases ha : pyIsSpace a
      · rw [if_pos ha]
        cases b
        · rw [if_neg (by exact Bool.false_ne_true)]
          rw [getLast?_cons_ne_nil ' ' (hne true)]
          exact hrec true
        · rw [if_pos rfl]
          exact hrec true
      · rw [if_neg ha]
        rw [getLast?_cons_ne_nil a (hne false)]
        exact hrec false

/-- Stripping is a no-op on the collapse of a strip-fixed list. -/
theorem pyStrip_collapseWs {l : List Char} (h : pyStrip l = l) :
    pyStrip (collapseWs l) = collapseWs l := by
  cases l with
  | nil => rfl
  | cons c cs =>
    obtain ⟨hfront, hback⟩ := pyStrip_fix h
    have hc : pyIsSpace c = false := by
      by_contra hws
      rw [Bool.not_eq_false] at hws
      rw [List.dropWhile_cons, if_pos hws] at hfront
      have h1 := congrArg List.length hfront
      have h2 := (List.dropWhile_suffix (l := cs) pyIsSpace).sublist.length_le
      simp only [List.length_cons] at h1
      omega
    have hlast : ∃ d, (c :: cs).getLast? = some d ∧ pyIsSpace d = false := by
      rcases hr : (c :: cs).reverse with _ | ⟨d, m⟩
      · have := congrArg List.length hr
        simp at this
      · refine ⟨d, ?_, ?_⟩
        · rw [← List.head?_reverse, hr]
          rfl
        · rw [hr, List.dropWhile_cons] at hback
          by_contra hws
          rw [Bool.not_eq_false] at hws
          rw [if_pos hws] at hback
          have h1 := congrArg List.length hback
          have h2 := (List.dropWhile_suffix (l := m) pyIsSpace).sublist.length_le
          simp only [List.length_cons] at h1
          omega
    obtain ⟨d, hd, hdws⟩ := hlast
    have hcol : collapseWs (c :: cs) = c :: collapseAux false cs := by
      simp only [collapseWs, collapseAux, hc, Bool.false_eq_true, if_false]
    have hcl : (collapseWs (c :: cs)).getLast? = some d :=
      collapseAux_getLast? false hd hdws
    have hstep1 : (collapseWs (c :: cs)).dropWhile pyIsSpace =
        collapseWs (c :: cs) := by
      rw [hcol, List.dropWhile_cons, hc]
      simp
    have hrev : (collapseWs (c :: cs)).reverse.head? = some d := by
      rw [List.head?_reverse]
      exact hcl
    have hstep2 : (collapseWs (c :: cs)).reverse.dropWhile pyIsSpace =
        (collapseWs (c :: cs)).reverse := by
      rcases hr2 : (collapseWs (c :: cs)).reverse with _ | ⟨x, m⟩
      · rfl
      · rw [hr2] at hrev
        simp only [List.head?_cons, Option.some.injEq] at hrev
        subst hrev
        rw [List.dropWhile_cons, hdws]
        simp
    rw [pyStrip, hstep1, hstep2, List.reverse_reverse]

/-- `get_text(strip=True)` of an element holding one strip-fixed text segment
is that segment. -/
theorem getTextStrip_single (tag : String) (attrs : List (String × String))
    (s : String) (h : pyStrip s.toList = s.toList) :
    getTextStrip (.elem tag attrs [.textN s]) = s.toList := by
  have h1 : (HNode.elem tag attrs [HNode.textN s]).textSegs = [s] := rfl
  rw [getTextStrip, h1]
  simp only [List.map_cons, List.map_nil, h]
  by_cases he : s.data = []
  · simp [he]
  · simp [he]

/-! ## Claim theorems -/

/-- Claim C4: `clean_price` replaces non-breaking spaces, locates the first
substring matching the digits/commas/optional-point pattern, and returns its
numeric value with commas removed; it is `None` exactly when no match exists
(in particular for the empty string); the quoted examples hold. -/
theorem C4_theorem :
    clean_price "₹1,999.50" = some ((3999 : ℚ) / 2) ∧
    clean_price "" = none ∧
    clean_price "Free" = none ∧
    (∀ s : String, clean_price s = none ↔ priceMatch (replaceNbsp s) = none) ∧
    (∀ (s : String) (m : List Char), priceMatch (replaceNbsp s) = some m →
      clean_price s = pyFloat (m.filter (fun c => c != ',')) ∧
      ∃ pre post, replaceNbsp s = pre ++ m ++ post ∧
        pre.all (fun c => !c.isDigit) = true ∧
        ∃ c ms, m = c :: ms ∧ c.isDigit = true) := by
  refine ⟨?_, rfl, rfl, ?_, ?_⟩
  · have h1 : clean_price "₹1,999.50" =
        some ((digitsToNat "1999".toList : ℚ) +
          (digitsToNat "50".toList : ℚ) / (10 : ℚ) ^ ("50".toList.length)) := rfl
    rw [h1, show digitsToNat "1999".toList = 1999 from rfl,
      show digitsToNat "50".toList = 50 from rfl,
      show ("50".toList.length) = 2 from rfl]
    norm_num
  · intro s
    constructor
    · intro h
      by_cases hs : s = ""
      · subst hs
        rfl
      · simp only [clean_price, if_neg hs] at h
        split at h
        · assumption
        · rename_i m heq
          obtain ⟨q, hq⟩ := priceMatch_parses heq
          rw [hq] at h
          simp at h
    · intro h
      by_cases hs : s = ""
      · subst hs
        rfl
      · simp only [clean_price, if_neg hs, h]
  · intro s m hm
    constructor
    · have hs : s ≠ "" := by
        intro he
        subst he
        simp [priceMatch, show replaceNbsp "" = [] from rfl] at hm
      simp only [clean_price, if_neg hs, hm]
    · exact priceMatch_split hm

/-- Witness for C4: the match inside `"₹1,999.50"` is `"1,999.50"`, it is
leftmost, and the returned value is its comma-free float value. -/
theorem C4_witness :
    clean_price "₹1,999.50" =
      pyFloat ("1,999.50".toList.filter (fun c => c != ',')) ∧
    ∃ pre post, replaceNbsp "₹1,999.50" = pre ++ "1,999.50".toList ++ post ∧
      pre.all (fun c => !c.isDigit) = true ∧
      ∃ c ms, "1,999.50".toList = c :: ms ∧ c.isDigit = true :=
  C4_theorem.2.2.2.2 "₹1,999.50" "1,999.50".toList rfl

/-- Claim C10: `clean_price` never returns a negative number, because the
matched pattern carries no sign; in particular `"-5"` yields `5`, not `-5`. -/
theorem C10_theorem :
    (∀ (s : String) (q : ℚ), clean_price s = some q → 0 ≤ q) ∧
    clean_price "-5" = some 5 := by
  constructor
  · intro s q h
    simp only [clean_price] at h
    split at h
    · simp at h
    · split at h
      · simp at h
      · exact pyFloat_nonneg h
  · have h1 : clean_price "-5" = some ((digitsToNat "5".toList : ℚ)) := rfl
    rw [h1, show digitsToNat "5".toList = 5 from rfl]
    norm_num

/-- Witness for C10: the bound instantiated at the input `"-5"`. -/
theorem C10_witness : (0 : ℚ) ≤ 5 :=
  C10_theorem.1 "-5" 5 (by
    have h1 : clean_price "-5" = some ((digitsToNat "5".toList : ℚ)) := rfl
    rw [h1, show digitsToNat "5".toList = 5 from rfl]
    norm_num)

/-- Claim C7 counterexample: on a field node whose text is split over child
elements with whitespace at segment boundaries, `txt` yields `"HelloWorld"`,
not the collapsed text content `"Hello World"` the claim requires:
`get_text(strip=True)` strips each segment and concatenates with no separator,
deleting boundary whitespace instead of folding it to one space. -/
theorem C7_counterexample :
    txt (some fixtureSplit) = "HelloWorld" ∧
    specCollapsedText fixtureSplit = "Hello World" ∧
    txt (some fixtureSplit) ≠ specCollapsedText fixtureSplit :=
  ⟨rfl, rfl, by decide⟩

/-- Claim C7 as amended: each text segment is stripped individually and the
segments are concatenated with no separator before whitespace runs are folded,
so whitespace lying at segment boundaries is deleted rather than folded to a
space; for a field node whose text is one segment with no leading or trailing
whitespace, the extracted string equals the claimed collapsed-trimmed text
content (inner runs, newlines included, folded to one space). -/
theorem C7_amended (tag : String) (attrs : List (String × String)) (s : String)
    (hstrip : pyStrip s.toList = s.toList) :
    txt (some (.elem tag attrs [.textN s])) =
      specCollapsedText (.elem tag attrs [.textN s]) := by
  have h1 : getTextStrip (.elem tag attrs [.textN s]) = s.toList :=
    getTextStrip_single tag attrs s hstrip
  have h2 : (((HNode.elem tag attrs [HNode.textN s]).textSegs.map
      String.toList).flatten) = s.toList := by
    rw [show (HNode.elem tag attrs [HNode.textN s]).textSegs = [s] from rfl]
    simp
  simp only [txt, txtNode, h1, specCollapsedText, h2, pyStrip_collapseWs hstrip]

/-- Witness for C7 (amended): a single segment containing newline runs, no
boundary whitespace: the extraction folds the runs to single spaces. -/
theorem C7_witness :
    txt (some (.elem "p" [] [.textN "a \n\n b"])) =
      specCollapsedText (.elem "p" [] [.textN "a \n\n b"]) :=
  C7_amended "p" [] "a \n\n b" rfl

/-- Claim C2 counterexample: the selector string `"["` is malformed, yet
`parse_products` with it as the required card selector neither raises nor
aborts: the syntax error is swallowed by `sel_all` and the call returns the
empty record list normally.  (With an intact card selector the same document
yields three records, so the emptiness comes from the swallowed error.) -/
theorem C2_counterexample :
    parseSelector "[" = none ∧
    parse_products "https://e.com/" fixtureDoc ⟨"[", "h3 a", "", "", "", ""⟩ 50 =
      Except.ok [] ∧
    ∃ recs, parse_products "https://books.toscrape.com/" fixtureDoc
        DEFAULT_SELECTORS 50 = Except.ok recs ∧ recs.length = 3 :=
  ⟨rfl, rfl, _, rfl, rfl⟩

/-- Claim C2 as amended: a malformed selector for any field, the required
`card` included, degrades to "no match" without raising: a malformed card
selector makes `parse_products` return the empty record list normally, and a
malformed optional-field selector leaves that field null on every record. -/
theorem C2_amended :
    (∀ (url : String) (doc : List HNode) (sels : Selectors) (k : Nat),
      parseSelector sels.card = none →
      parse_products url doc sels k = Except.ok []) ∧
    (∀ (url : String) (doc : List HNode) (sels : Selectors) (k : Nat)
      (recs : List Product) (r : Product),
      parse_products url doc sels k = Except.ok recs → r ∈ recs →
      (parseSelector sels.name = none → r.product_name = none) ∧
      (parseSelector sels.price = none →
        r.price_text = none ∧ r.price_value = none) ∧
      (parseSelector sels.image = none → r.image_url = none) ∧
      (parseSelector sels.review = none → r.review = none) ∧
      (parseSelector sels.link = none → r.product_url = none)) := by
  constructor
  · intro url doc sels k hcard
    rw [parse_products, sel_all_none hcard, List.take_nil]
    rfl
  · intro url doc sels k recs r hpp hr
    rw [parse_products] at hpp
    obtain ⟨c, hc, hb⟩ := buildAll_mem hpp r hr
    obtain ⟨hname, hpt, hpv, hrev, himg, hlink⟩ := buildProduct_ok hb
    refine ⟨fun hx => ?_, fun hx => ?_, fun hx => ?_, fun hx => ?_, fun hx => ?_⟩
    · rw [hname, sel_one_none hx]
      rfl
    · rw [hpt, hpv, sel_one_none hx]
      exact ⟨rfl, rfl⟩
    · exact himg (sel_one_none hx)
    · rw [hrev, sel_one_none hx]
      rfl
    · exact hlink (sel_one_none hx)

/-- Witness for C2 (amended): the malformed card selector `"["` on a document
that has products. -/
theorem C2_witness :
    parse_products "https://e.com/" fixtureDoc ⟨"[", "h3 a", "", "", "", ""⟩ 50 =
      Except.ok [] :=
  C2_amended.1 "https://e.com/" fixtureDoc ⟨"[", "h3 a", "", "", "", ""⟩ 50 rfl

/-- Claim C3 counterexample: a document whose single card matches the card
selector, but whose link resolves through `urljoin` to a
`ValueError("Invalid IPv6 URL")`: `parse_products` returns no records at all
(the claim demands exactly one record, built from the one card match). -/
theorem C3_counterexample :
    (sel_all fixtureBracket ".c").length = 1 ∧
    parse_products "https://e.com/" fixtureBracket ⟨".c", "", "", "", "", "a"⟩ 50 =
      Except.error "Invalid IPv6 URL" :=
  ⟨rfl, rfl⟩

/-- Claim C3 as amended: when `parse_products` returns, it returns exactly the
records of the first `min(n, k)` card matches in document order (index by
index, so all-null cards are still emitted), hence never more than `k`
records; zero card matches give the empty sequence with no error; and the
call does return whenever every one of the first `min(n, k)` cards builds
without a URL-resolution error — but a card whose image or link candidate
carries mismatched brackets aborts the whole call with `ValueError` instead. -/
theorem C3_amended :
    (∀ (url : String) (doc : List HNode) (sels : Selectors) (k : Nat)
      (recs : List Product), parse_products url doc sels k = Except.ok recs →
      recs.length = min k (sel_all doc sels.card).length ∧ recs.length ≤ k) ∧
    (∀ (url : String) (doc : List HNode) (sels : Selectors) (k : Nat),
      sel_all doc sels.card = [] → parse_products url doc sels k = Except.ok []) ∧
    (∀ (url : String) (doc : List HNode) (sels : Selectors) (k : Nat)
      (recs : List Product) (i : Nat) (hi : i < recs.length)
      (hj : i < (sel_all doc sels.card).length),
      parse_products url doc sels k = Except.ok recs →
      buildProduct url sels ((sel_all doc sels.card).get ⟨i, hj⟩) =
        Except.ok (recs.get ⟨i, hi⟩)) ∧
    (∀ (url : String) (doc : List HNode) (sels : Selectors) (k : Nat),
      (∀ c ∈ (sel_all doc sels.card).take k,
        ∃ p, buildProduct url sels c = Except.ok p) →
      ∃ recs, parse_products url doc sels k = Except.ok recs) := by
  refine ⟨?_, ?_, ?_, ?_⟩
  · intro url doc sels k recs hpp
    rw [parse_products] at hpp
    have hlen := (buildAll_get hpp).1
    rw [List.length_take] at hlen
    exact ⟨hlen, by rw [hlen]; exact min_le_left _ _⟩
  · intro url doc sels k hempty
    rw [parse_products, hempty, List.take_nil]
    rfl
  · intro url doc sels k recs i hi hj hpp
    rw [parse_products] at hpp
    obtain ⟨hlen, hidx⟩ := buildAll_get hpp
    have hi2 : i < ((sel_all doc sels.card).take k).length := hlen ▸ hi
    have hik : i < k := by
      rw [List.length_take] at hi2
      exact (lt_min_iff.mp hi2).1
    have h3 := List.get_take (sel_all doc sels.card) hj hik
    rw [h3]
    exact hidx i hi hi2
  · intro url doc sels k hall
    obtain ⟨rs, hrs⟩ := buildAll_total hall
    exact ⟨rs, by rw [parse_products]; exact hrs⟩

/-- Witness for C3 (amended): the cap `k = 2` on the three-card fixture
returns exactly two records. -/
theorem C3_witness :
    ∃ recs : List Product,
      parse_products "https://books.toscrape.com/" fixtureDoc DEFAULT_SELECTORS 2 =
        Except.ok recs ∧
      recs.length = min 2 (sel_all fixtureDoc DEFAULT_SELECTORS.card).length ∧
      recs.length ≤ 2 :=
  ⟨_, rfl, C3_amended.1 "https://books.toscrape.com/" fixtureDoc
    DEFAULT_SELECTORS 2 _ rfl⟩

/-- Claim C8: in every record `parse_products` produces, a non-null
`price_value` forces a non-null `price_text` whose `clean_price` value is
exactly `price_value`. -/
theorem C8_theorem (url : String) (doc : List HNode) (sels : Selectors) (k : Nat)
    (recs : List Product) (r : Product) (q : ℚ)
    (hpp : parse_products url doc sels k = Except.ok recs) (hr : r ∈ recs)
    (hq : r.price_value = some q) :
    ∃ t, r.price_text = some t ∧ clean_price t = some q := by
  rw [parse_products] at hpp
  obtain ⟨c, hc, hb⟩ := buildAll_mem hpp r hr
  obtain ⟨hname, hpt, hpv, hrev, himg, hlink⟩ := buildProduct_ok hb
  rw [hpv] at hq
  have hne : txt (sel_one c sels.price) ≠ "" := by
    intro he
    rw [he] at hq
    simp [clean_price] at hq
  refine ⟨txt (sel_one c sels.price), ?_, hq⟩
  rw [hpt, strOrNone, if_neg hne]

/-- Witness for C8: the single-card price fixture, whose record has
`price_text = "£51"` and `price_value = 51`. -/
theorem C8_witness :
    ∃ t, (⟨none, some "£51", some (51 : ℚ), none, none, none⟩ : Product).price_text
        = some t ∧ clean_price t = some (51 : ℚ) :=
  C8_theorem "https://e.com/" fixturePrice ⟨".c", "", ".p", "", "", ""⟩ 50
    [⟨none, some "£51", some (51 : ℚ), none, none, none⟩]
    ⟨none, some "£51", some (51 : ℚ), none, none, none⟩ 51
    rfl (List.mem_cons_self _ _) rfl

/-- Claim C1 counterexample: the host `notmyntra.com` is neither an entry of
the denylist nor a subdomain of one, yet `domain_blocked` returns `True` for
it, because the code tests the bare character suffix
`host.endswith("myntra.com")`. -/
theorem C1_counterexample :
    domain_blocked "https://notmyntra.com" = Except.ok true ∧
    specHostDenied "notmyntra.com" = false :=
  ⟨rfl, rfl⟩

/-- Claim C1 as amended: whenever URL parsing succeeds, `domain_blocked`
returns exactly the test "the lowercased host ends with the characters
`myntra.com`"; every denylist entry and subdomain of one is blocked (so the
spec's denylist check is under-approximated, not missed), and the two quoted
examples hold. -/
theorem C1_amended :
    (∀ (url : String) (r : SplitResult), urlsplit url = Except.ok r →
      domain_blocked url = Except.ok
        (List.isSuffixOf "myntra.com".toList
          (((hostOf r).getD "").toList.map Char.toLower))) ∧
    (∀ host : String, specHostDenied host = true →
      List.isSuffixOf "myntra.com".toList (host.toList.map Char.toLower) = true) ∧
    domain_blocked "https://www.myntra.com/foo" = Except.ok true ∧
    domain_blocked "https://books.toscrape.com" = Except.ok false := by
  refine ⟨?_, ?_, rfl, rfl⟩
  · intro url r h
    rw [domain_blocked, h]
    simp only [okBind]
    rfl
  · intro host h
    simp only [specHostDenied, BLOCKED_HOSTS, List.any_cons, List.any_nil,
      Bool.or_false, Bool.or_eq_true, beq_iff_eq] at h
    rw [List.isSuffixOf_iff_suffix]
    rcases h with (h | h) | (h | h)
    · subst h
      decide
    · rw [List.isSuffixOf_iff_suffix] at h
      exact List.IsSuffix.trans ⟨['.'], rfl⟩ (h.map Char.toLower)
    · subst h
      decide
    · rw [List.isSuffixOf_iff_suffix] at h
      exact List.IsSuffix.trans ⟨".www.".toList, rfl⟩ (h.map Char.toLower)

/-- Witness for C1 (amended): instantiated at the spec's blocked example. -/
theorem C1_witness :
    domain_blocked "https://www.myntra.com/foo" = Except.ok
      (List.isSuffixOf "myntra.com".toList
        (((hostOf ⟨"https", "www.myntra.com", "/foo", "", ""⟩).getD
          "").toList.map Char.toLower)) :=
  C1_amended.1 "https://www.myntra.com/foo"
    ⟨"https", "www.myntra.com", "/foo", "", ""⟩ rfl

/-- Claim C9 counterexample: `domain_blocked` is not total: on a URL whose
authority has an unmatched square bracket, `urlparse` raises
`ValueError("Invalid IPv6 URL")` and `domain_blocked` propagates it. -/
theorem C9_counterexample :
    domain_blocked "http://[" = Except.error "Invalid IPv6 URL" :=
  rfl

/-- Claim C9 as amended: whenever `urlparse` succeeds and extracts no
hostname, `domain_blocked` returns `False` (so hostless inputs are never
blocked); but mismatched brackets in the authority raise instead of
returning. -/
theorem C9_amended :
    (∀ (url : String) (r : SplitResult), urlsplit url = Except.ok r →
      hostOf r = none → domain_blocked url = Except.ok false) ∧
    domain_blocked "" = Except.ok false ∧
    domain_blocked "/relative/path" = Except.ok false ∧
    domain_blocked "mailto:user@myntra.com" = Except.ok false := by
  refine ⟨?_, rfl, rfl, rfl⟩
  intro url r hsplit hhost
  rw [domain_blocked, hsplit]
  simp only [okBind]
  rw [hhost]
  rfl

/-- Witness for C9 (amended): a relative path has no hostname and is not
blocked. -/
theorem C9_witness :
    domain_blocked "/relative/path" = Except.ok false :=
  C9_amended.1 "/relative/path" ⟨"", "", "/relative/path", "", ""⟩ rfl rfl

/-- Claim C5: `to_abs` returns `None` and the empty string unchanged; an
already-absolute candidate (same scheme as the base, a non-empty netloc, and
whose serialization round-trips) passes through unchanged; and the two quoted
examples hold. -/
theorem C5_theorem :
    (∀ base : String, to_abs none base = Except.ok none) ∧
    (∀ base : String, to_abs (some "") base = Except.ok (some "")) ∧
    (∀ (cand base : String) (b u : ParseResult),
      base ≠ "" → cand ≠ "" →
      urlparse base = Except.ok b → urlparse cand = Except.ok u →
      u.scheme = b.scheme → uses_relative.contains u.scheme = true →
      uses_netloc.contains u.scheme = true → u.netloc ≠ "" →
      urlunparse u = cand →
      to_abs (some cand) base = Except.ok (some cand)) ∧
    to_abs (some "/a/b.jpg") "https://x.com/c/" =
      Except.ok (some "https://x.com/a/b.jpg") ∧
    to_abs (some "https://y.com/z") "https://x.com/" =
      Except.ok (some "https://y.com/z") := by
  refine ⟨fun base => rfl, fun base => rfl, ?_, rfl, rfl⟩
  intro cand base b u hbase hcand hpb hpu hs hrel hnet hnl hunp
  have hscheme : (if u.scheme = "" then b.scheme else u.scheme) = u.scheme := by
    split <;> simp [hs]
  have hc1 : (decide (u.scheme ≠ b.scheme) ||
      !uses_relative.contains u.scheme) = false := by
    rw [hrel]
    simp [hs]
  have hc2 : (uses_netloc.contains u.scheme && decide (u.netloc ≠ "")) = true := by
    rw [hnet]
    simp [hnl]
  have hj : urljoin base cand = Except.ok cand := by
    rw [urljoin, if_neg hbase, if_neg hcand, hpb, hpu]
    simp only [okBind]
    rw [hscheme]
    simp only [hc1, Bool.false_eq_true, if_false, hc2, if_true]
    show Except.ok (urlunparse u) = Except.ok cand
    rw [hunp]
  simp only [to_abs, if_neg hcand, hj]
  rfl

/-- Witness for C5: the absolute-candidate passthrough applied at the spec's
example `resolveUrl("https://y.com/z", "https://x.com/")`. -/
theorem C5_witness :
    to_abs (some "https://y.com/z") "https://x.com/" =
      Except.ok (some "https://y.com/z") :=
  C5_theorem.2.2.1 "https://y.com/z" "https://x.com/"
    ⟨"https", "x.com", "/", "", "", ""⟩ ⟨"https", "y.com", "/z", "", "", ""⟩
    (by decide) (by decide) rfl rfl rfl rfl rfl (by decide) rfl

/-- Claim C6: for a URL whose host is denylisted, `fetch_html` raises before
any network access: the result is the policy error and the network trace is
empty, regardless of the JS-rendering flag or Playwright availability. -/
theorem C6_theorem (url : String) (use_js playwright_available : Bool)
    (render get : String → String)
    (hb : domain_blocked url = Except.ok true) :
    fetch_html url use_js playwright_available render get =
      (Except.error (FetchErr.policyError policyMsg), []) := by
  simp [fetch_html, hb]

/-- Witness for C6: the blocked scenario of the spec,
`scrape("https://www.myntra.com/x", …)`, with JS rendering requested. -/
theorem C6_witness :
    fetch_html "https://www.myntra.com/x" true true (fun _ => "") (fun _ => "") =
      (Except.error (FetchErr.policyError policyMsg), []) :=
  C6_theorem "https://www.myntra.com/x" true true (fun _ => "") (fun _ => "") rfl

end Scraper
